import Mathlib

/-!
Shallow embedding of the PathWise learning-platform front end.

Strings manipulated by the JavaScript source are modelled as `List Char`;
JavaScript numbers appearing in progress arithmetic are modelled as exact
rationals (`ℚ`), and integer counters as `ℕ`.  Fallible operations return
`Except` / `Option`.
-/

namespace PathWise

/-! ## JavaScript string primitives (src/lib/gemini.ts helpers) -/

/-- JS `String.prototype.trim` whitespace test (the ASCII part of the JS
whitespace class; all inputs relevant here are ASCII). -/
def isJsWsp (c : Char) : Bool :=
  c = ' ' || c = '\t' || c = '\n' || c = '\r' || c = '\x0b' || c = '\x0c'

/-- Drop leading JS whitespace. -/
def trimLeft (s : List Char) : List Char := s.dropWhile isJsWsp

/-- Drop trailing JS whitespace. -/
def trimRight (s : List Char) : List Char := (s.reverse.dropWhile isJsWsp).reverse

/-- JS `trim()`: drop whitespace at both ends. -/
def trimStr (s : List Char) : List Char := trimRight (trimLeft s)

/-- Index of the first occurrence of `c` (JS `indexOf`, `none` for `-1`). -/
def firstIdx (c : Char) : List Char → Option Nat
  | [] => none
  | x :: xs => if x = c then some 0 else (firstIdx c xs).map (· + 1)

/-- Index of the last occurrence of `c` (JS `lastIndexOf`, `none` for `-1`). -/
def lastIdx (c : Char) (s : List Char) : Option Nat :=
  (firstIdx c s.reverse).map (fun i => s.length - 1 - i)

/-- JS `substring(i, j + 1)`: the characters at indices `i .. j`. -/
def extractSpan (s : List Char) (i j : Nat) : List Char :=
  (s.drop i).take (j + 1 - i)

/-- The match of the greedy regex `o[\s\S]*c` (for `o`/`c` a literal open and
close delimiter): it exists iff some occurrence of `o` precedes some
occurrence of `c`; the match then runs from the first `o` that precedes the
last `c`, up to that last `c`.  Returns the pair of match start index and
match end index. -/
def reMatch (o c : Char) (s : List Char) : Option (Nat × Nat) :=
  match lastIdx c s with
  | none => none
  | some j =>
    match firstIdx o (s.take j) with
    | none => none
    | some i => some (i, j)

/-- JS `substring(firstBracket, lastBracket + 1)` fallback for arrays
(the inner `else` branch of the fallback in `cleanJsonResponse`). -/
def fallbackBrackets (s : List Char) : List Char :=
  match firstIdx '[' s, lastIdx ']' s with
  | some i, some j => if i < j then extractSpan s i j else s
  | _, _ => s

/-- The `indexOf`/`lastIndexOf` fallback of `cleanJsonResponse`, used when
neither regex matched. -/
def fallbackExtract (s : List Char) : List Char :=
  match firstIdx '{' s, lastIdx '}' s with
  | some i, some j => if i < j then extractSpan s i j else fallbackBrackets s
  | _, _ => fallbackBrackets s

/-- The leading markdown code-fence stripping of `cleanJsonResponse`: drop 7
characters when the text starts with a fence that spells out json, else 3
when it starts with a bare fence. -/
def stripFront (c0 : List Char) : List Char :=
  if List.isPrefixOf "```json".toList c0 then c0.drop 7
  else if List.isPrefixOf "```".toList c0 then c0.drop 3
  else c0

/-- The markdown code-fence stripping of `cleanJsonResponse`: the leading
strip, then a trailing fence mark is dropped (`endsWith` modelled as
`isPrefixOf` on the reversal). -/
def stripFences (c0 : List Char) : List Char :=
  if List.isPrefixOf ("```".toList.reverse) (stripFront c0).reverse then
    (stripFront c0).take ((stripFront c0).length - 3)
  else stripFront c0

/-- The span-extraction step of `cleanJsonResponse` on the cleaned text: the
array regex match wins when it exists and starts before any object match,
the object match is used otherwise, and the `indexOf` fallback runs when
neither regex matched. -/
def extractJson (cleaned : List Char) : List Char :=
  match reMatch '[' ']' cleaned, reMatch '{' '}' cleaned with
  | some (ai, aj), none => extractSpan cleaned ai aj
  | some (ai, aj), some (oi, oj) =>
    if ai < oi then extractSpan cleaned ai aj else extractSpan cleaned oi oj
  | none, some (oi, oj) => extractSpan cleaned oi oj
  | none, none => fallbackExtract cleaned

/-- `cleanJsonResponse` from src/lib/gemini.ts: trim, strip markdown code
fences, trim again, then extract a JSON object or array span. -/
def cleanJsonResponse (content : List Char) : List Char :=
  extractJson (trimStr (stripFences (trimStr content)))

/-- JS `String.prototype.includes`: does `n` occur as a contiguous substring
of `h`? -/
def containsSub (h n : List Char) : Bool :=
  List.isPrefixOf n h ||
    match h with
    | [] => false
    | _ :: t => containsSub t n

/-- JS `toLowerCase` (ASCII). -/
def lower (s : List Char) : List Char := s.map Char.toLower

/-! ## makeGeminiRequest (src/lib/gemini.ts) -/

def rateLimitMsg : List Char :=
  "API rate limit exceeded. Please try again in a few minutes.".toList

def invalidKeyMsg : List Char :=
  "Invalid API key. Please check your Gemini API configuration.".toList

def unavailableMsg : List Char :=
  "AI service is temporarily unavailable. Please try again later.".toList

def genericFailHead : List Char := "AI request failed: ".toList

def invalidResponseMsg : List Char :=
  "Invalid response from AI service. Please try again.".toList

def invalidFormatMsg : List Char :=
  "AI returned invalid data format. Please try again.".toList

def parseFailMsg : List Char :=
  "Failed to process AI response. Please try again.".toList

def timeoutMsg : List Char :=
  "Request timeout - the AI service is taking too long to respond. Please try again.".toList

def networkMsg : List Char :=
  "Network connection error. Please check your internet connection and try again.".toList

def keyMissingMsg : List Char :=
  "Gemini API key is not configured. Please check your environment variables.".toList

/-- An HTTP response from the generative-language endpoint, as
`makeGeminiRequest` consumes it: the status code, the error body text
(read by `response.text()` on failure), and — when the JSON body is
well-formed — the reply text `data.candidates[0].content.parts[0].text`. -/
structure HttpResponse where
  status : Nat
  bodyText : List Char
  content : Option (List Char)

/-- `response.ok` per the fetch specification: status in the range 200-299. -/
def respOk (r : HttpResponse) : Bool := 200 ≤ r.status && r.status ≤ 299

/-- The status-code classification of the `!response.ok` branch of
`makeGeminiRequest` (429 / 401 / >= 500 / generic with status and body). -/
def classifyStatus (status : Nat) (bodyText : List Char) : List Char :=
  if status = 429 then rateLimitMsg
  else if status = 401 then invalidKeyMsg
  else if 500 ≤ status then unavailableMsg
  else genericFailHead ++ (Nat.repr status).toList ++ " - ".toList ++ bodyText

/-- The body of `makeGeminiRequest`'s `try` block after `fetch` resolved to a
response: status classification, candidate extraction, `cleanJsonResponse`,
format check, and `JSON.parse` (the platform's JSON parser is passed in as
the external function `parse`). -/
def handleGeminiResponse (parse : List Char → Option α) (r : HttpResponse) :
    Except (List Char) α :=
  if respOk r = false then .error (classifyStatus r.status r.bodyText)
  else
    match r.content with
    | none => .error invalidResponseMsg
    | some content =>
      if (cleanJsonResponse content).isEmpty ||
          (!(List.isPrefixOf "[".toList (cleanJsonResponse content)) &&
            !(List.isPrefixOf "\x7b".toList (cleanJsonResponse content))) then
        .error invalidFormatMsg
      else
        match parse (cleanJsonResponse content) with
        | some v => .ok v
        | none => .error parseFailMsg

/-- The `catch` block of `makeGeminiRequest`, applied to a non-abort error:
an error whose message contains "fetch" is replaced by the network-error
message, every other error is rethrown unchanged. -/
def catchWrap (m : List Char) : List Char :=
  if containsSub m "fetch".toList then networkMsg else m

/-- How `fetch` can conclude inside `makeGeminiRequest`: with an HTTP
response, by the timeout's `AbortError`, or with a thrown network error
carrying a message. -/
inductive FetchOutcome where
  | response (r : HttpResponse)
  | abortTimeout
  | failure (msg : List Char)

/-- One invocation of `makeGeminiRequest`, returning its result together
with the number of times `fetch` was invoked.  The missing-key error, the
status errors and the parse errors are all thrown inside the `try` block and
therefore pass through the `catch` rewrap; the `AbortError` becomes the
timeout message. -/
def makeGeminiRequest (parse : List Char → Option α) (keyConfigured : Bool)
    (f : FetchOutcome) : Except (List Char) α × Nat :=
  if keyConfigured = false then (.error (catchWrap keyMissingMsg), 0)
  else
    match f with
    | .response r =>
      (match handleGeminiResponse parse r with
       | .ok v => .ok v
       | .error m => .error (catchWrap m), 1)
    | .abortTimeout => (.error timeoutMsg, 1)
    | .failure m => (.error (catchWrap m), 1)

/-- The error wrapper of `generateQuestions` / `generateRoadmap`: the result
of `makeGeminiRequest` is rethrown with its own message when non-empty,
otherwise with the fallback text. -/
def wrapGenError (fallback : List Char) : Except (List Char) α → Except (List Char) α
  | .ok v => .ok v
  | .error m => .error (if m.isEmpty then fallback else m)

/-- `generateQuestions` (src/lib/gemini.ts): one `makeGeminiRequest`, an
`Array.isArray` check, and the message-preserving rethrow. -/
def generateQuestions (parse : List Char → Option α) (isArr : α → Bool)
    (keyConfigured : Bool) (f : FetchOutcome) : Except (List Char) α × Nat :=
  (wrapGenError "Failed to generate questions - please try again".toList
    (match (makeGeminiRequest parse keyConfigured f).1 with
     | .ok v =>
       if isArr v then .ok v
       else .error "Invalid questions format received from AI".toList
     | .error m => .error m),
   (makeGeminiRequest parse keyConfigured f).2)

/-- The toast message that `handleGoalSubmit` in OnboardingFlow.tsx surfaces
when `generateQuestions` fails (`error.message || "Failed to generate
questions. Please try again."`); `none` when generation succeeded. -/
def goalSubmitToast (parse : List Char → Option α) (isArr : α → Bool)
    (keyConfigured : Bool) (f : FetchOutcome) : Option (List Char) :=
  match (generateQuestions parse isArr keyConfigured f).1 with
  | .ok _ => none
  | .error m =>
    some (if m.isEmpty then "Failed to generate questions. Please try again.".toList else m)

/-! ## formatAuthError (src/contexts/AuthContext.tsx) -/

/-- An upstream auth/database error value as `formatAuthError` receives it:
possibly null (`Option` at the outer level), with possibly-absent `message`
and `code` fields. -/
structure AuthFailure where
  message : Option (List Char)
  code : Option (List Char)

/-- `error.message || ""`. -/
def errMsgOf (e : AuthFailure) : List Char := e.message.getD []

/-- `error.code || ""`. -/
def errCodeOf (e : AuthFailure) : List Char := e.code.getD []

def unexpectedMsg : List Char := "An unexpected error occurred".toList

def invalidCredsMsg : List Char :=
  "Invalid email or password. Please check your credentials and try again.".toList

def alreadyExistsMsg : List Char :=
  "An account with this email already exists. Please sign in instead or use a different email.".toList

def weakPasswordMsg : List Char :=
  "Password is too weak. Please use at least 6 characters with a mix of letters and numbers.".toList

def invalidEmailMsg : List Char := "Please enter a valid email address.".toList

def emailNotConfirmedMsg : List Char :=
  "Please check your email and click the confirmation link before signing in.".toList

def tooManyRequestsMsg : List Char :=
  "Too many login attempts. Please wait a few minutes before trying again.".toList

def signupDisabledMsg : List Char :=
  "New user registration is currently disabled. Please contact support.".toList

def emailInvalidFormatMsg : List Char :=
  "The email address format is invalid. Please enter a valid email.".toList

def passwordTooShortMsg : List Char :=
  "Password must be at least 6 characters long.".toList

def userNotFoundMsg : List Char :=
  "No account found with this email address. Please sign up first.".toList

def sessionExpiredMsg : List Char :=
  "Your session has expired. Please sign in again.".toList

def authExpiredMsg : List Char :=
  "Authentication expired. Please sign in again.".toList

def invalidRequestMsg : List Char :=
  "Invalid request. Please check your information and try again.".toList

def alreadyExistsShortMsg : List Char :=
  "An account with this email already exists. Please sign in instead.".toList

def weakPasswordShortMsg : List Char :=
  "Password is too weak. Please use at least 6 characters.".toList

def connTimeoutMsg : List Char :=
  "Connection timeout. Please check your internet connection and try again.".toList

def tooManyAttemptsMsg : List Char :=
  "Too many attempts. Please wait a few minutes before trying again.".toList

def databaseErrMsg : List Char :=
  "Database connection error. Please try again in a moment.".toList

def serviceUnavailableShortMsg : List Char :=
  "Service temporarily unavailable. Please try again in a moment.".toList

def genericAuthMsg : List Char :=
  "An unexpected error occurred. Please try again or contact support if the problem persists.".toList

/-- `formatAuthError` (src/contexts/AuthContext.tsx lines 30-140): the
`switch` over `error.code`, the lowercase-substring checks on
`error.message`, the short-message passthrough, and the generic fallback. -/
def formatAuthError : Option AuthFailure → List Char
  | none => unexpectedMsg
  | some e =>
    if errCodeOf e = "invalid_credentials".toList then invalidCredsMsg
    else if errCodeOf e = "user_already_exists".toList ∨ errCodeOf e = "email_address_already_exists".toList then
      alreadyExistsMsg
    else if errCodeOf e = "weak_password".toList then weakPasswordMsg
    else if errCodeOf e = "invalid_email".toList then invalidEmailMsg
    else if errCodeOf e = "email_not_confirmed".toList then emailNotConfirmedMsg
    else if errCodeOf e = "too_many_requests".toList then tooManyRequestsMsg
    else if errCodeOf e = "signup_disabled".toList then signupDisabledMsg
    else if errCodeOf e = "email_address_invalid".toList then emailInvalidFormatMsg
    else if errCodeOf e = "password_too_short".toList then passwordTooShortMsg
    else if errCodeOf e = "user_not_found".toList then userNotFoundMsg
    else if errCodeOf e = "session_not_found".toList then sessionExpiredMsg
    else if errCodeOf e = "refresh_token_not_found".toList then authExpiredMsg
    else if errCodeOf e = "invalid_request".toList then invalidRequestMsg
    else if errCodeOf e = "network_error".toList then networkMsg
    else if containsSub (lower (errMsgOf e)) "invalid login credentials".toList then invalidCredsMsg
    else if containsSub (lower (errMsgOf e)) "user already registered".toList then alreadyExistsShortMsg
    else if containsSub (lower (errMsgOf e)) "email not confirmed".toList then emailNotConfirmedMsg
    else if containsSub (lower (errMsgOf e)) "weak password".toList then weakPasswordShortMsg
    else if containsSub (lower (errMsgOf e)) "invalid email".toList then invalidEmailMsg
    else if containsSub (lower (errMsgOf e)) "timeout".toList ∨ containsSub (lower (errMsgOf e)) "timed out".toList then
      connTimeoutMsg
    else if containsSub (lower (errMsgOf e)) "network".toList then networkMsg
    else if containsSub (lower (errMsgOf e)) "rate limit".toList then tooManyAttemptsMsg
    else if containsSub (lower (errMsgOf e)) "database".toList then databaseErrMsg
    else if containsSub (lower (errMsgOf e)) "not_found".toList ∨ containsSub (lower (errMsgOf e)) "404".toList then
      serviceUnavailableShortMsg
    else if errMsgOf e ≠ [] ∧ (errMsgOf e).length < 100 ∧ containsSub (errMsgOf e) "Error:".toList = false then errMsgOf e
    else genericAuthMsg

/-- The fixed user-facing auth message catalogue: every string literal that
`formatAuthError` can return other than the passthrough of the upstream
message itself. -/
def authMessages : List (List Char) :=
  [unexpectedMsg, invalidCredsMsg, alreadyExistsMsg, weakPasswordMsg, invalidEmailMsg,
   emailNotConfirmedMsg, tooManyRequestsMsg, signupDisabledMsg, emailInvalidFormatMsg,
   passwordTooShortMsg, userNotFoundMsg, sessionExpiredMsg, authExpiredMsg,
   invalidRequestMsg, networkMsg, alreadyExistsShortMsg, weakPasswordShortMsg,
   connTimeoutMsg, tooManyAttemptsMsg, databaseErrMsg, serviceUnavailableShortMsg,
   genericAuthMsg]

/-! ## handleGenerateRoadmap (src/components/Onboarding/OnboardingFlow.tsx) -/

/-- A topic of a generated roadmap week. -/
structure RoadTopic where
  title : List Char
  lessonObjective : List Char
  estimatedTime : List Char

/-- A week of a generated roadmap: a title and its list of topics. -/
structure RoadWeek where
  title : List Char
  topics : List RoadTopic

/-- A row of the `lessons` table as inserted by `handleGenerateRoadmap`. -/
structure LessonRow where
  roadmap_id : List Char
  week_number : Nat
  title : List Char
  lesson_objective : List Char
  estimated_time : List Char
  order_index : Nat
deriving DecidableEq

/-- The lesson row `handleGenerateRoadmap` builds for one indexed topic
(`t.1` is the topic's position inside its week). -/
def lessonOfTopic (rid : List Char) (wnum : Nat) (t : Nat × RoadTopic) : LessonRow :=
  { roadmap_id := rid
    week_number := wnum
    title := t.2.title
    lesson_objective := t.2.lessonObjective
    estimated_time := t.2.estimatedTime
    order_index := t.1 }

/-- The lesson rows of one indexed week (`w.1` is the week's 0-based
position, stored 1-based): `week.topics.map((topic, topicIndex) => ...)`. -/
def lessonsOfWeek (rid : List Char) (w : Nat × RoadWeek) : List LessonRow :=
  w.2.topics.enum.map (lessonOfTopic rid (w.1 + 1))

/-- The lesson rows built by `handleGenerateRoadmap`:
`roadmapData.flatMap((week, weekIndex) => week.topics.map((topic, topicIndex) => ...))`. -/
def buildLessons (rid : List Char) (weeks : List RoadWeek) : List LessonRow :=
  weeks.enum.flatMap (lessonsOfWeek rid)

/-- A row of the `user_progress` table. -/
structure ProgressRow where
  user_id : List Char
  roadmap_id : List Char
  total_lessons : Nat
  completed_lessons : Nat
  total_time_spent : Nat
  average_accuracy : ℚ
  current_week : Nat

/-- The success path of `handleGenerateRoadmap`: the lesson rows inserted
into `lessons` and the row inserted into `user_progress`. -/
def handleGenerateRoadmap (uid rid : List Char) (weeks : List RoadWeek) :
    List LessonRow × ProgressRow :=
  let lessons := buildLessons rid weeks
  (lessons,
   { user_id := uid
     roadmap_id := rid
     total_lessons := lessons.length
     completed_lessons := 0
     total_time_spent := 0
     average_accuracy := 0
     current_week := 1 })

/-! ## Lesson content cache (LessonView.fetchLesson, browser localStorage) -/

/-- The browser key-value store, as an association list of key/value pairs. -/
abbrev KVStore := List (List Char × List Char)

/-- `localStorage.getItem`. -/
def storeGet (st : KVStore) (k : List Char) : Option (List Char) :=
  (List.find? (fun p => p.1 = k) st).map (·.2)

/-- `localStorage.setItem`: replace the value under `k`, or append the new
entry. -/
def storeSet (st : KVStore) (k v : List Char) : KVStore :=
  if (List.find? (fun p => p.1 = k) st).isSome then
    List.map (fun p => if p.1 = k then (k, v) else p) st
  else st ++ [(k, v)]

/-- The cache key `lesson_${lessonId}`. -/
def lessonKey (id : List Char) : List Char := "lesson_".toList ++ id

/-- The caching step of `fetchLesson` (LessonView): on a cache hit the cached
content is used and the generator is not called; on a miss the generator's
result `generated` is used and written back under the lesson key.  The third
component counts the calls to `generateLessonContent`. -/
def fetchLessonContent (st : KVStore) (id : List Char) (generated : List Char) :
    List Char × KVStore × Nat :=
  match storeGet st (lessonKey id) with
  | some cached => (cached, st, 0)
  | none => (generated, storeSet st (lessonKey id) generated, 1)

/-! ## Lesson completion and progress (LessonView) -/

/-- The progress counters of a `user_progress` row that the completion
handlers read and write. -/
structure UserProgress where
  completed_lessons : Nat
  total_time_spent : Nat
  average_accuracy : ℚ
deriving DecidableEq

/-- The progress update shared by `handleMarkComplete` and `completeTest`:
`completed_lessons + 1`, `total_time_spent + 30`, and the running-mean
update of `average_accuracy` with the new score. -/
def applyCompletionProgress (p : UserProgress) (score : ℚ) : UserProgress :=
  { completed_lessons := p.completed_lessons + 1
    total_time_spent := p.total_time_spent + 30
    average_accuracy :=
      (p.average_accuracy * p.completed_lessons + score) / (p.completed_lessons + 1) }

/-- The `lesson_completions` upsert: one record per user and lesson (the
table's `UNIQUE(user_id, lesson_id)` constraint), so a repeated completion
replaces the record instead of adding one. -/
def upsertCompletion (ls : List (List Char)) (l : List Char) : List (List Char) :=
  if l ∈ ls then ls else l :: ls

/-- The per-user-per-roadmap completion state: the set of completed lesson
ids and the progress record. -/
structure LessonState where
  completions : List (List Char)
  progress : UserProgress

/-- A completion operation: upsert the completion record and apply the
progress update. -/
def completeLesson (st : LessonState) (l : List Char) (score : ℚ) : LessonState :=
  { completions := upsertCompletion st.completions l
    progress := applyCompletionProgress st.progress score }

/-- `handleMarkComplete` (LessonView): a completion with score fixed at 100. -/
def handleMarkComplete (st : LessonState) (l : List Char) : LessonState :=
  completeLesson st l 100

/-! ## Test scoring (LessonView.completeTest) -/

/-- An assessment question as `completeTest` reads it: the stored correct
answer may be absent (`question.answer?.`). -/
structure AssessQuestion where
  question : List Char
  answer : Option (List Char)
deriving DecidableEq

/-- `?.trim().toLowerCase() || ""` applied to a possibly-absent string. -/
def normAnswer (s : Option (List Char)) : List Char :=
  match s with
  | none => []
  | some t => lower (trimStr t)

/-- The user's answer at index `i` (`userAnswers[index]`), normalized. -/
def userAnswerAt (uas : List (List Char)) (i : Nat) : List Char :=
  normAnswer uas[i]?

/-- The `correctAnswers` count of `completeTest`: the number of question
indices at which the normalized user answer equals the normalized stored
answer. -/
def countCorrect (qs : List AssessQuestion) (uas : List (List Char)) : Nat :=
  List.countP (fun q => userAnswerAt uas q.1 == normAnswer q.2.answer) qs.enum

/-- JS `Math.round` on a non-negative value: floor of `x + 1/2`. -/
def jsRound (q : ℚ) : ℤ := ⌊q + 1 / 2⌋

/-- `finalScore` of `completeTest`:
`Math.round((correctAnswers / questions.length) * 100)` over exact rational
arithmetic. -/
def finalScore (qs : List AssessQuestion) (uas : List (List Char)) : ℤ :=
  jsRound ((countCorrect qs uas : ℚ) / (qs.length : ℚ) * 100)

/-- `completeTest` (LessonView): score the test, upsert the completion
record, and apply the progress update with the computed score. -/
def completeTest (st : LessonState) (l : List Char) (qs : List AssessQuestion)
    (uas : List (List Char)) : LessonState :=
  completeLesson st l (finalScore qs uas : ℚ)

/-! ## LessonsList.fetchLessons: parallel dispatch of the two queries -/

/-- A settled database query result as the supabase client returns it:
an `error` field and a `data` field (`null` data is read back as `[]`). -/
structure QueryOutcome (α : Type) where
  error : Option (List Char)
  data : Option (List α)

/-- A row of the `lesson_completions` table as `fetchLessons` reads it. -/
structure CompletionRow where
  lesson_id : List Char
  score : Nat
deriving DecidableEq

/-- The component state `fetchLessons` leaves behind: either the error state
or the loaded `lessons` and `completions` lists. -/
inductive LessonsViewState where
  | failed (msg : List Char)
  | loaded (lessons : List LessonRow) (completions : List CompletionRow)
deriving DecidableEq

/-- The merge step after both queries settled: check `lessonsResult.error`,
then `completionsResult.error`, then store `data || []` of each. -/
def mergeResults (lr : QueryOutcome LessonRow) (cr : QueryOutcome CompletionRow) :
    LessonsViewState :=
  match lr.error with
  | some e => .failed e
  | none =>
    match cr.error with
    | some e => .failed e
    | none => .loaded (lr.data.getD []) (cr.data.getD [])

/-- The two promises dispatched by `Promise.all`. -/
inductive QueryTag where
  | lessonsQ
  | completionsQ

/-- The pending slots of `Promise.all([lessonsPromise, completionsPromise])`:
each settled promise fills its slot; the continuation runs once both are
filled. -/
structure PromiseSlots where
  lessonsSlot : Option (QueryOutcome LessonRow)
  completionsSlot : Option (QueryOutcome CompletionRow)

/-- One promise settling: its result is written into its slot. -/
def settleOne (lr : QueryOutcome LessonRow) (cr : QueryOutcome CompletionRow)
    (s : PromiseSlots) : QueryTag → PromiseSlots
  | .lessonsQ => { s with lessonsSlot := some lr }
  | .completionsQ => { s with completionsSlot := some cr }

/-- Run `Promise.all` under a given settlement order: settle the promises one
by one, then run the merge continuation once both slots are filled (`none`
if the schedule never settles both). -/
def fetchLessonsPar (order : List QueryTag) (lr : QueryOutcome LessonRow)
    (cr : QueryOutcome CompletionRow) : Option LessonsViewState :=
  let s := order.foldl (settleOne lr cr) ⟨none, none⟩
  match s.lessonsSlot, s.completionsSlot with
  | some a, some b => some (mergeResults a b)
  | _, _ => none

/-- The sequential reference: await the lessons query, then the completions
query, then merge. -/
def fetchLessonsSeq (lr : QueryOutcome LessonRow) (cr : QueryOutcome CompletionRow) :
    LessonsViewState :=
  mergeResults lr cr

/-! ## Remaining definitions used by the theorems -/

/-- Characters free of JSON delimiters: surrounding free-form text containing
none of the four bracket characters. -/
def noDelims (s : List Char) : Bool :=
  s.all (fun c => !(c = '{' || c = '}' || c = '[' || c = ']'))

/-- The total number of `fetch` calls issued by a sequence of user-initiated
`makeGeminiRequest` invocations (one list entry per user action). -/
def traceRequests (parse : List Char → Option α) (keyConfigured : Bool)
    (fs : List FetchOutcome) : Nat :=
  (fs.map (fun f => (makeGeminiRequest parse keyConfigured f).2)).sum

/-- Whether the failure toast of `handleGenerateRoadmap` carries a bound
Retry action: only when the message mentions the unavailable AI service. -/
def roadmapToastHasRetry (m : List Char) : Bool :=
  containsSub m "AI service is temporarily unavailable".toList

/-- The progress record produced by a sequence of completions starting from
the freshly initialized record (`completed_lessons 0`, `total_time_spent 0`,
`average_accuracy 0`), one `applyCompletionProgress` per completion. -/
def runProgress (scores : List ℚ) : UserProgress :=
  scores.foldl applyCompletionProgress ⟨0, 0, 0⟩

/-! ## Store lemmas -/

theorem find?_replace_of_isSome (st : KVStore) (k v : List Char)
    (h : (List.find? (fun p => p.1 = k) st).isSome) :
    List.find? (fun p => p.1 = k)
      (List.map (fun p => if p.1 = k then (k, v) else p) st) = some (k, v) := by
  induction st with
  | nil => simp at h
  | cons x xs ih =>
    rw [List.map_cons]
    by_cases hx : x.1 = k
    · rw [if_pos hx, List.find?_cons_of_pos _ (by simp)]
    · rw [if_neg hx, List.find?_cons_of_neg _ (by simpa using hx)]
      rw [List.find?_cons_of_neg _ (by simpa using hx)] at h
      exact ih h

theorem find?_replace_of_ne (st : KVStore) (k v k' : List Char) (h : k' ≠ k) :
    List.find? (fun p => p.1 = k')
      (List.map (fun p => if p.1 = k then (k, v) else p) st) =
      List.find? (fun p => p.1 = k') st := by
  induction st with
  | nil => simp
  | cons x xs ih =>
    rw [List.map_cons]
    by_cases hx : x.1 = k
    · rw [if_pos hx, List.find?_cons_of_neg _ (by simp [Ne.symm h]),
        List.find?_cons_of_neg _ (by simp [hx, Ne.symm h])]
      exact ih
    · by_cases hk' : x.1 = k'
      · rw [if_neg hx, List.find?_cons_of_pos _ (by simpa using hk'),
          List.find?_cons_of_pos _ (by simpa using hk')]
      · rw [if_neg hx, List.find?_cons_of_neg _ (by simpa using hk'),
          List.find?_cons_of_neg _ (by simpa using hk')]
        exact ih

/-- `setItem` stores the new value under `k`. -/
theorem storeGet_storeSet_self (st : KVStore) (k v : List Char) :
    storeGet (storeSet st k v) k = some v := by
  unfold storeGet storeSet
  by_cases h : (List.find? (fun p => p.1 = k) st).isSome
  · rw [if_pos h, find?_replace_of_isSome st k v h]
    rfl
  · rw [if_neg h, List.find?_append, Option.not_isSome_iff_eq_none.mp h,
      List.find?_cons_of_pos _ (by simp)]
    rfl

/-- `setItem` under `k` leaves every other key's entry untouched. -/
theorem storeGet_storeSet_other (st : KVStore) (k v k' : List Char) (h : k' ≠ k) :
    storeGet (storeSet st k v) k' = storeGet st k' := by
  unfold storeGet storeSet
  by_cases hs : (List.find? (fun p => p.1 = k) st).isSome
  · rw [if_pos hs, find?_replace_of_ne st k v k' h]
  · rw [if_neg hs, List.find?_append,
      List.find?_cons_of_neg _ (by simp [Ne.symm h]), List.find?_nil, Option.or_none]

/-- C6: generated lesson content is cached in browser key-value storage under
`lesson_<id>`: a cache hit returns the cached value, performs no generation
call and leaves the store unchanged; a miss performs exactly one generation
call and writes the result under the key; and no entry is ever expired,
invalidated or deleted — every entry present before `fetchLesson` is still
present afterwards, unchanged unless it is the written key itself. -/
theorem fetchLesson_cache_policy (st : KVStore) (id generated : List Char) :
    (∀ c, storeGet st (lessonKey id) = some c →
      fetchLessonContent st id generated = (c, st, 0)) ∧
    (storeGet st (lessonKey id) = none →
      fetchLessonContent st id generated =
        (generated, storeSet st (lessonKey id) generated, 1) ∧
      storeGet (fetchLessonContent st id generated).2.1 (lessonKey id) = some generated) ∧
    (∀ k c, storeGet st k = some c →
      ∃ c', storeGet (fetchLessonContent st id generated).2.1 k = some c' ∧
        (k ≠ lessonKey id → c' = c)) := by
  refine ⟨fun c hc => ?_, fun hn => ?_, fun k c hkc => ?_⟩
  · simp [fetchLessonContent, hc]
  · constructor
    · simp [fetchLessonContent, hn]
    · simp [fetchLessonContent, hn, storeGet_storeSet_self]
  · cases hget : storeGet st (lessonKey id) with
    | some cached =>
      refine ⟨c, ?_, fun _ => rfl⟩
      simp [fetchLessonContent, hget, hkc]
    | none =>
      by_cases hk : k = lessonKey id
      · subst hk
        rw [hget] at hkc
        exact absurd hkc (by simp)
      · refine ⟨c, ?_, fun _ => rfl⟩
        simp [fetchLessonContent, hget, storeGet_storeSet_other st (lessonKey id) generated k hk,
          hkc]

/-- Witness for `fetchLesson_cache_policy` at a concrete store: a store
holding an unrelated key, a fresh lesson id, and a generated payload. -/
theorem fetchLesson_cache_policy_witness :
    fetchLessonContent [("other".toList, "v".toList)] "42".toList "body".toList =
      ("body".toList,
        [("other".toList, "v".toList), (lessonKey "42".toList, "body".toList)], 1) ∧
    storeGet (fetchLessonContent [("other".toList, "v".toList)] "42".toList "body".toList).2.1
        (lessonKey "42".toList) = some "body".toList := by
  have h := fetchLesson_cache_policy [("other".toList, "v".toList)] "42".toList "body".toList
  have h2 := h.2.1 (by decide)
  exact ⟨by rw [h2.1]; decide, h2.2⟩

/-- C8: dispatching the lessons query and the completions query through
`Promise.all` yields, under either settlement order, exactly the state the
sequential awaiting of the two queries produces: the merged result is a
function of the two query results alone. -/
theorem fetchLessons_parallel_deterministic (lr : QueryOutcome LessonRow)
    (cr : QueryOutcome CompletionRow) :
    fetchLessonsPar [.lessonsQ, .completionsQ] lr cr = some (fetchLessonsSeq lr cr) ∧
    fetchLessonsPar [.completionsQ, .lessonsQ] lr cr = some (fetchLessonsSeq lr cr) := by
  exact ⟨rfl, rfl⟩

/-! ## C7: no automatic retry -/

theorem makeGeminiRequest_fetch_calls (parse : List Char → Option α)
    (k : Bool) (f : FetchOutcome) :
    (makeGeminiRequest parse k f).2 = if k then 1 else 0 := by
  cases k <;> cases f <;> simp [makeGeminiRequest]

/-- C7: no failure triggers an automatic re-issue of the failed request:
every invocation of `makeGeminiRequest` — whatever the outcome, timeout,
network failure or bad status included — invokes `fetch` exactly once (zero
times when the API key is missing), and a trace of user-initiated
invocations issues exactly one request per user action, never more. -/
theorem no_automatic_retry (parse : List Char → Option α) (k : Bool)
    (f : FetchOutcome) (fs : List FetchOutcome) :
    (makeGeminiRequest parse k f).2 = (if k then 1 else 0) ∧
    traceRequests parse k fs = (if k then fs.length else 0) ∧
    traceRequests parse k fs ≤ fs.length := by
  have htr : traceRequests parse k fs = (if k then fs.length else 0) := by
    induction fs with
    | nil => cases k <;> simp [traceRequests]
    | cons g gs ih =>
      simp only [traceRequests, List.map_cons, List.sum_cons] at ih ⊢
      rw [ih, makeGeminiRequest_fetch_calls]
      cases k <;> simp [Nat.add_comm]
  refine ⟨makeGeminiRequest_fetch_calls parse k f, htr, ?_⟩
  rw [htr]
  cases k <;> simp

/-! ## C3: the completed-lessons counter vs completion records -/

/-- C3 counterexample: completing the same lesson twice (here: marking it
complete, then finishing its test) leaves one completion record — the upsert
respects the per-user-per-lesson uniqueness — but increments the progress
counter both times, so `completed_lessons = 2` while only one completion
record exists: the invariant is not preserved by re-completion. -/
theorem completion_invariant_counterexample :
    (completeTest (handleMarkComplete ⟨[], ⟨0, 0, 0⟩⟩ "l1".toList) "l1".toList
        [⟨"q".toList, some "a".toList⟩] ["a".toList]).progress.completed_lessons = 2 ∧
    (completeTest (handleMarkComplete ⟨[], ⟨0, 0, 0⟩⟩ "l1".toList) "l1".toList
        [⟨"q".toList, some "a".toList⟩] ["a".toList]).completions.length = 1 := by
  constructor <;> decide

/-- C3 amended: for a lesson that is not yet completed, every completion
operation (`completeLesson` with any score, hence both `handleMarkComplete`
and `completeTest`) preserves the invariant that the progress counter equals
the number of completion records; re-completion of an already-completed
lesson breaks it, as the counterexample shows. -/
theorem completion_preserves_progress_invariant
    (st : LessonState) (l : List Char) (s : ℚ)
    (qs : List AssessQuestion) (uas : List (List Char))
    (hinv : st.progress.completed_lessons = st.completions.length)
    (hfresh : l ∉ st.completions) :
    (completeLesson st l s).progress.completed_lessons =
      (completeLesson st l s).completions.length ∧
    (handleMarkComplete st l).progress.completed_lessons =
      (handleMarkComplete st l).completions.length ∧
    (completeTest st l qs uas).progress.completed_lessons =
      (completeTest st l qs uas).completions.length := by
  have key : ∀ sc : ℚ, (completeLesson st l sc).progress.completed_lessons =
      (completeLesson st l sc).completions.length := by
    intro sc
    simp [completeLesson, applyCompletionProgress, upsertCompletion, hfresh, hinv]
  exact ⟨key s, key 100, key _⟩

/-- Witness for `completion_preserves_progress_invariant`: a first completion
of lesson "x" from the fresh state keeps counter and record count equal. -/
theorem completion_preserves_progress_invariant_witness :
    (completeLesson ⟨[], ⟨0, 0, 0⟩⟩ "x".toList 50).progress.completed_lessons =
      (completeLesson ⟨[], ⟨0, 0, 0⟩⟩ "x".toList 50).completions.length ∧
    (handleMarkComplete ⟨[], ⟨0, 0, 0⟩⟩ "x".toList).progress.completed_lessons =
      (handleMarkComplete ⟨[], ⟨0, 0, 0⟩⟩ "x".toList).completions.length ∧
    (completeTest ⟨[], ⟨0, 0, 0⟩⟩ "x".toList [] []).progress.completed_lessons =
      (completeTest ⟨[], ⟨0, 0, 0⟩⟩ "x".toList [] []).completions.length :=
  completion_preserves_progress_invariant ⟨[], ⟨0, 0, 0⟩⟩ "x".toList 50 [] []
    (by decide) (by decide)

/-! ## C10: the running-mean recurrence -/

theorem foldl_applyCompletionProgress (scores : List ℚ) :
    ∀ p : UserProgress,
      (List.foldl applyCompletionProgress p scores).completed_lessons =
        p.completed_lessons + scores.length ∧
      (List.foldl applyCompletionProgress p scores).total_time_spent =
        p.total_time_spent + 30 * scores.length ∧
      (List.foldl applyCompletionProgress p scores).average_accuracy *
          ((List.foldl applyCompletionProgress p scores).completed_lessons : ℚ) =
        p.average_accuracy * (p.completed_lessons : ℚ) + scores.sum := by
  induction scores with
  | nil => intro p; simp
  | cons s tail ih =>
    intro p
    obtain ⟨ih1, ih2, ih3⟩ := ih (applyCompletionProgress p s)
    rw [List.foldl_cons]
    refine ⟨?_, ?_, ?_⟩
    · rw [ih1]; simp [applyCompletionProgress]; ring
    · rw [ih2]; simp [applyCompletionProgress]; ring
    · rw [ih3, List.sum_cons]
      have hc : ((p.completed_lessons : ℚ) + 1) ≠ 0 := by positivity
      simp only [applyCompletionProgress]
      push_cast
      rw [div_mul_cancel₀ _ hc]
      ring

/-- C10: every completion updates the progress record by the running-mean
recurrence, incrementing `completed_lessons` by 1 and `total_time_spent` by
a flat 30 (with the score fixed at 100 for `handleMarkComplete`), so that —
over exact rational arithmetic, starting from average 0 and count 0 — after
the completions with scores `scores` the stored average equals the
arithmetic mean of the scores. -/
theorem progress_running_mean (scores : List ℚ) :
    (runProgress scores).completed_lessons = scores.length ∧
    (runProgress scores).total_time_spent = 30 * scores.length ∧
    (∀ p s, applyCompletionProgress p s =
      ⟨p.completed_lessons + 1, p.total_time_spent + 30,
        (p.average_accuracy * p.completed_lessons + s) / (p.completed_lessons + 1)⟩) ∧
    (∀ st l, (handleMarkComplete st l).progress = applyCompletionProgress st.progress 100) ∧
    (∀ st l qs uas, (completeTest st l qs uas).progress =
      applyCompletionProgress st.progress (finalScore qs uas : ℚ)) ∧
    (scores ≠ [] →
      (runProgress scores).average_accuracy = scores.sum / (scores.length : ℚ)) := by
  obtain ⟨h1, h2, h3⟩ := foldl_applyCompletionProgress scores ⟨0, 0, 0⟩
  have h1' : (runProgress scores).completed_lessons = scores.length := by
    simpa [runProgress] using h1
  have h2' : (runProgress scores).total_time_spent = 30 * scores.length := by
    simpa [runProgress] using h2
  have h3' : (runProgress scores).average_accuracy *
      ((runProgress scores).completed_lessons : ℚ) = scores.sum := by
    simpa [runProgress] using h3
  refine ⟨h1', h2', fun p s => rfl, fun st l => rfl, fun st l qs uas => rfl, fun hne => ?_⟩
  have hlen : (scores.length : ℚ) ≠ 0 := by
    exact_mod_cast fun h => hne (List.length_eq_zero.mp (by exact_mod_cast h))
  rw [eq_div_iff hlen]
  rw [h1'] at h3'
  exact h3'

/-- Witness for `progress_running_mean`: after completions scoring 50 and
100 the record holds 2 completions, 60 minutes, and average 75. -/
theorem progress_running_mean_witness :
    (runProgress [(50 : ℚ), 100]).completed_lessons = 2 ∧
    (runProgress [(50 : ℚ), 100]).total_time_spent = 60 ∧
    (runProgress [(50 : ℚ), 100]).average_accuracy = 75 := by
  have h := progress_running_mean [(50 : ℚ), 100]
  have h6 := h.2.2.2.2.2 (by simp)
  refine ⟨by simpa using h.1, by rw [h.2.1]; norm_num, ?_⟩
  rw [h6]
  norm_num

/-! ## C9: test scoring -/

/-- C9 counterexample: the claim that an unanswered question never counts as
correct fails when the stored answer itself normalizes to the empty string —
here the single question's stored answer is whitespace, the user answered
nothing, and the test scores a full 100. -/
theorem completeTest_unanswered_counterexample :
    countCorrect [⟨"q".toList, some "  ".toList⟩] [] = 1 ∧
    finalScore [⟨"q".toList, some "  ".toList⟩] [] = 100 := by
  have h : countCorrect [⟨"q".toList, some "  ".toList⟩] [] = 1 := by decide
  refine ⟨h, ?_⟩
  unfold finalScore
  rw [h]
  norm_num [jsRound, Int.floor_eq_iff]

/-- C9 amended: `completeTest` scores `round(100 * c / n)` where `c` counts
the indices at which the whitespace-trimmed lowercased user answer (empty
when unanswered) equals the whitespace-trimmed lowercased stored answer; an
unanswered or non-matching question never counts as correct provided every
stored answer is non-empty after normalization (with an empty stored answer
an unanswered question does count, as the counterexample shows). -/
theorem completeTest_score (qs : List AssessQuestion) (uas : List (List Char))
    (hans : ∀ q ∈ qs, normAnswer q.answer ≠ []) :
    finalScore qs uas = jsRound (100 * (countCorrect qs uas : ℚ) / (qs.length : ℚ)) ∧
    countCorrect qs uas =
      List.countP (fun q => !(userAnswerAt uas q.1 == ([] : List Char)) &&
        (userAnswerAt uas q.1 == normAnswer q.2.answer)) qs.enum ∧
    (∀ st l, (completeTest st l qs uas).progress =
      applyCompletionProgress st.progress (finalScore qs uas : ℚ)) := by
  refine ⟨?_, ?_, fun st l => rfl⟩
  · unfold finalScore
    congr 1
    ring
  · unfold countCorrect
    apply List.countP_congr
    rintro ⟨i, a⟩ hx
    obtain ⟨-, hlt, hval⟩ := List.mem_enumFrom hx
    have hmem : a ∈ qs := by
      rw [hval]
      exact List.getElem_mem _
    have hne := hans a hmem
    constructor
    · intro hp
      have heq : userAnswerAt uas i = normAnswer a.answer := by
        simpa using hp
      simp [heq, hne]
    · intro hq
      simp only [Bool.and_eq_true] at hq
      exact hq.2

/-- Witness for `completeTest_score`: one question with stored answer
containing stray case and whitespace, answered correctly. -/
theorem completeTest_score_witness :
    finalScore [⟨"q".toList, some "A ".toList⟩] ["a".toList] =
      jsRound (100 * (countCorrect [⟨"q".toList, some "A ".toList⟩] ["a".toList] : ℚ) /
        (([⟨"q".toList, some "A ".toList⟩] : List AssessQuestion).length : ℚ)) ∧
    countCorrect [⟨"q".toList, some "A ".toList⟩] ["a".toList] =
      List.countP (fun q => !(userAnswerAt ["a".toList] q.1 == ([] : List Char)) &&
        (userAnswerAt ["a".toList] q.1 == normAnswer q.2.answer))
        ([(⟨"q".toList, some "A ".toList⟩ : AssessQuestion)] : List AssessQuestion).enum :=
  ⟨(completeTest_score [⟨"q".toList, some "A ".toList⟩] ["a".toList] (by decide)).1,
   (completeTest_score [⟨"q".toList, some "A ".toList⟩] ["a".toList] (by decide)).2.1⟩

/-! ## C4: formatAuthError -/

/-- C4 counterexample: an upstream error whose message is short, non-empty
and free of the listed patterns is passed through verbatim, so the returned
message is not drawn from the fixed catalogue of category messages. -/
theorem formatAuthError_passthrough_counterexample :
    formatAuthError (some ⟨some "banana".toList, none⟩) = "banana".toList ∧
    "banana".toList ∉ authMessages := by
  constructor
  · decide
  · decide

set_option maxHeartbeats 1600000 in
/-- C4 amended: `formatAuthError` is total and always returns a non-empty
user-facing message; the message is drawn from the fixed catalogue of
category messages except in the passthrough case, where the upstream
error's own message is returned verbatim (non-empty, shorter than 100
characters and not containing "Error:"). -/
theorem formatAuthError_classification (e : Option AuthFailure) :
    formatAuthError e ≠ [] ∧
    (formatAuthError e ∈ authMessages ∨
      ∃ a, e = some a ∧ formatAuthError e = errMsgOf a ∧ errMsgOf a ≠ [] ∧
        (errMsgOf a).length < 100 ∧
        containsSub (errMsgOf a) "Error:".toList = false) := by
  cases e with
  | none =>
    refine ⟨by decide, Or.inl ?_⟩
    rw [formatAuthError]
    decide
  | some a =>
    rw [formatAuthError]
    by_cases h1 : errCodeOf a = "invalid_credentials".toList
    · rw [if_pos h1]
      exact ⟨by decide, Or.inl (by decide)⟩
    rw [if_neg h1]
    by_cases h2 : errCodeOf a = "user_already_exists".toList ∨ errCodeOf a = "email_address_already_exists".toList
    · rw [if_pos h2]
      exact ⟨by decide, Or.inl (by decide)⟩
    rw [if_neg h2]
    by_cases h3 : errCodeOf a = "weak_password".toList
    · rw [if_pos h3]
      exact ⟨by decide, Or.inl (by decide)⟩
    rw [if_neg h3]
    by_cases h4 : errCodeOf a = "invalid_email".toList
    · rw [if_pos h4]
      exact ⟨by decide, Or.inl (by decide)⟩
    rw [if_neg h4]
    by_cases h5 : errCodeOf a = "email_not_confirmed".toList
    · rw [if_pos h5]
      exact ⟨by decide, Or.inl (by decide)⟩
    rw [if_neg h5]
    by_cases h6 : errCodeOf a = "too_many_requests".toList
    · rw [if_pos h6]
      exact ⟨by decide, Or.inl (by decide)⟩
    rw [if_neg h6]
    by_cases h7 : errCodeOf a = "signup_disabled".toList
    · rw [if_pos h7]
      exact ⟨by decide, Or.inl (by decide)⟩
    rw [if_neg h7]
    by_cases h8 : errCodeOf a = "email_address_invalid".toList
    · rw [if_pos h8]
      exact ⟨by decide, Or.inl (by decide)⟩
    rw [if_neg h8]
    by_cases h9 : errCodeOf a = "password_too_short".toList
    · rw [if_pos h9]
      exact ⟨by decide, Or.inl (by decide)⟩
    rw [if_neg h9]
    by_cases h10 : errCodeOf a = "user_not_found".toList
    · rw [if_pos h10]
      exact ⟨by decide, Or.inl (by decide)⟩
    rw [if_neg h10]
    by_cases h11 : errCodeOf a = "session_not_found".toList
    · rw [if_pos h11]
      exact ⟨by decide, Or.inl (by decide)⟩
    rw [if_neg h11]
    by_cases h12 : errCodeOf a = "refresh_token_not_found".toList
    · rw [if_pos h12]
      exact ⟨by decide, Or.inl (by decide)⟩
    rw [if_neg h12]
    by_cases h13 : errCodeOf a = "invalid_request".toList
    · rw [if_pos h13]
      exact ⟨by decide, Or.inl (by decide)⟩
    rw [if_neg h13]
    by_cases h14 : errCodeOf a = "network_error".toList
    · rw [if_pos h14]
      exact ⟨by decide, Or.inl (by decide)⟩
    rw [if_neg h14]
    by_cases h15 : containsSub (lower (errMsgOf a)) "invalid login credentials".toList = true
    · rw [if_pos h15]
      exact ⟨by decide, Or.inl (by decide)⟩
    rw [if_neg h15]
    by_cases h16 : containsSub (lower (errMsgOf a)) "user already registered".toList = true
    · rw [if_pos h16]
      exact ⟨by decide, Or.inl (by decide)⟩
    rw [if_neg h16]
    by_cases h17 : containsSub (lower (errMsgOf a)) "email not confirmed".toList = true
    · rw [if_pos h17]
      exact ⟨by decide, Or.inl (by decide)⟩
    rw [if_neg h17]
    by_cases h18 : containsSub (lower (errMsgOf a)) "weak password".toList = true
    · rw [if_pos h18]
      exact ⟨by decide, Or.inl (by decide)⟩
    rw [if_neg h18]
    by_cases h19 : containsSub (lower (errMsgOf a)) "invalid email".toList = true
    · rw [if_pos h19]
      exact ⟨by decide, Or.inl (by decide)⟩
    rw [if_neg h19]
    by_cases h20 : containsSub (lower (errMsgOf a)) "timeout".toList = true ∨ containsSub (lower (errMsgOf a)) "timed out".toList = true
    · rw [if_pos h20]
      exact ⟨by decide, Or.inl (by decide)⟩
    rw [if_neg h20]
    by_cases h21 : containsSub (lower (errMsgOf a)) "network".toList = true
    · rw [if_pos h21]
      exact ⟨by decide, Or.inl (by decide)⟩
    rw [if_neg h21]
    by_cases h22 : containsSub (lower (errMsgOf a)) "rate limit".toList = true
    · rw [if_pos h22]
      exact ⟨by decide, Or.inl (by decide)⟩
    rw [if_neg h22]
    by_cases h23 : containsSub (lower (errMsgOf a)) "database".toList = true
    · rw [if_pos h23]
      exact ⟨by decide, Or.inl (by decide)⟩
    rw [if_neg h23]
    by_cases h24 : containsSub (lower (errMsgOf a)) "not_found".toList = true ∨ containsSub (lower (errMsgOf a)) "404".toList = true
    · rw [if_pos h24]
      exact ⟨by decide, Or.inl (by decide)⟩
    rw [if_neg h24]
    by_cases h25 : errMsgOf a ≠ [] ∧ (errMsgOf a).length < 100 ∧
        containsSub (errMsgOf a) "Error:".toList = false
    · rw [if_pos h25]
      exact ⟨h25.1, Or.inr ⟨a, rfl, rfl, h25.1, h25.2.1, h25.2.2⟩⟩
    · rw [if_neg h25]
      exact ⟨by decide, Or.inl (by decide)⟩


/-! ## C5: roadmap-to-lessons derivation -/

theorem enumFrom_get_mem (ts : List RoadTopic) :
    ∀ (n i : Nat) (h : i < ts.length), (n + i, ts.get ⟨i, h⟩) ∈ List.enumFrom n ts := by
  induction ts with
  | nil => intro n i h; simp at h
  | cons t rest ih =>
    intro n i h
    cases i with
    | zero => simp [List.enumFrom_cons]
    | succ j =>
      have hj : j < rest.length := by simpa using h
      have := ih (n + 1) j hj
      rw [List.enumFrom_cons]
      refine List.mem_cons_of_mem _ ?_
      have harith : n + 1 + j = n + (j + 1) := by omega
      rw [harith] at this
      exact this

theorem flatMap_enumFrom_length (rid : List Char) (weeks : List RoadWeek) :
    ∀ n : Nat, ((List.enumFrom n weeks).flatMap (lessonsOfWeek rid)).length =
      (weeks.map (fun w => w.topics.length)).sum := by
  induction weeks with
  | nil => intro n; simp
  | cons w rest ih =>
    intro n
    rw [List.enumFrom_cons, List.flatMap_cons, List.length_append, ih (n + 1)]
    simp [lessonsOfWeek, List.enumFrom_length]

theorem mem_flatMap_enumFrom (rid : List Char) (weeks : List RoadWeek) :
    ∀ (n wi : Nat) (hw : wi < weeks.length) (ti : Nat)
      (ht : ti < (weeks.get ⟨wi, hw⟩).topics.length),
      lessonOfTopic rid (n + wi + 1) (ti, (weeks.get ⟨wi, hw⟩).topics.get ⟨ti, ht⟩) ∈
        (List.enumFrom n weeks).flatMap (lessonsOfWeek rid) := by
  induction weeks with
  | nil => intro n wi hw; simp at hw
  | cons w rest ih =>
    intro n wi hw ti ht
    rw [List.enumFrom_cons, List.flatMap_cons]
    cases wi with
    | zero =>
      refine List.mem_append_left _ ?_
      unfold lessonsOfWeek
      refine List.mem_map.mpr ⟨(ti, (w.topics.get ⟨ti, by simpa using ht⟩)), ?_, ?_⟩
      · have := enumFrom_get_mem w.topics 0 ti (by simpa using ht)
        simpa [List.enum] using this
      · simp
    | succ wj =>
      have hw' : wj < rest.length := by simpa using hw
      refine List.mem_append_right _ ?_
      have := ih (n + 1) wj hw' ti (by simpa using ht)
      have harith : n + 1 + wj + 1 = n + (wj + 1) + 1 := by omega
      rw [harith] at this
      convert this using 3

/-- C5: `handleGenerateRoadmap` creates exactly one lesson row per roadmap
topic — the row count is the total topic count, and the topic at position
`ti` of the week at position `wi` yields a row with `week_number = wi + 1`,
`order_index = ti` and title/objective/estimated time copied from the topic
— and initializes the `user_progress` row with `total_lessons` equal to the
total topic count, zero completed lessons, zero time spent, zero average
accuracy and `current_week 1`. -/
theorem handleGenerateRoadmap_lessons_and_progress (uid rid : List Char)
    (weeks : List RoadWeek) :
    (handleGenerateRoadmap uid rid weeks).1.length =
      (weeks.map (fun w => w.topics.length)).sum ∧
    (∀ (wi : Nat) (hw : wi < weeks.length) (ti : Nat)
        (ht : ti < (weeks.get ⟨wi, hw⟩).topics.length),
      ({ roadmap_id := rid
         week_number := wi + 1
         title := ((weeks.get ⟨wi, hw⟩).topics.get ⟨ti, ht⟩).title
         lesson_objective := ((weeks.get ⟨wi, hw⟩).topics.get ⟨ti, ht⟩).lessonObjective
         estimated_time := ((weeks.get ⟨wi, hw⟩).topics.get ⟨ti, ht⟩).estimatedTime
         order_index := ti } : LessonRow) ∈ (handleGenerateRoadmap uid rid weeks).1) ∧
    (handleGenerateRoadmap uid rid weeks).2 =
      { user_id := uid
        roadmap_id := rid
        total_lessons := (weeks.map (fun w => w.topics.length)).sum
        completed_lessons := 0
        total_time_spent := 0
        average_accuracy := 0
        current_week := 1 } := by
  have hlen : (buildLessons rid weeks).length = (weeks.map (fun w => w.topics.length)).sum := by
    unfold buildLessons List.enum
    exact flatMap_enumFrom_length rid weeks 0
  refine ⟨hlen, fun wi hw ti ht => ?_, ?_⟩
  · have := mem_flatMap_enumFrom rid weeks 0 wi hw ti ht
    simpa [handleGenerateRoadmap, buildLessons, List.enum, lessonOfTopic] using this
  · simp [handleGenerateRoadmap, hlen]

/-- Witness for `handleGenerateRoadmap_lessons_and_progress`: a one-week,
one-topic roadmap produces exactly one lesson row (week 1, index 0, fields
copied) and a fresh progress row with `total_lessons = 1`. -/
theorem handleGenerateRoadmap_witness :
    (handleGenerateRoadmap "u".toList "r".toList
      [⟨"w1".toList, [⟨"t".toList, "o".toList, "e".toList⟩]⟩]).1.length = 1 ∧
    ({ roadmap_id := "r".toList
       week_number := 1
       title := "t".toList
       lesson_objective := "o".toList
       estimated_time := "e".toList
       order_index := 0 } : LessonRow) ∈
      (handleGenerateRoadmap "u".toList "r".toList
        [⟨"w1".toList, [⟨"t".toList, "o".toList, "e".toList⟩]⟩]).1 := by
  have h := handleGenerateRoadmap_lessons_and_progress "u".toList "r".toList
    [⟨"w1".toList, [⟨"t".toList, "o".toList, "e".toList⟩]⟩]
  exact ⟨by simpa using h.1, h.2.1 0 (by decide) 0 (by decide)⟩

/-! ## C2: status-code error classification -/

theorem append_ne_of_not_isPrefixOf (a b x : List Char)
    (h : List.isPrefixOf a b = false) : a ++ x ≠ b := by
  intro heq
  have hpre : List.isPrefixOf a b = true :=
    List.isPrefixOf_iff_prefix.mpr (heq ▸ List.prefix_append a x)
  rw [h] at hpre
  exact Bool.false_ne_true hpre

theorem classifyStatus_of_ok (status : Nat) (body : List Char)
    (h1 : 200 ≤ status) (h2 : status ≤ 299) :
    classifyStatus status body =
      genericFailHead ++ ((Nat.repr status).toList ++ " - ".toList ++ body) := by
  unfold classifyStatus
  rw [if_neg (by omega), if_neg (by omega), if_neg (by omega)]
  simp [List.append_assoc]

theorem handleGeminiResponse_of_ok (parse : List Char → Option α) (r : HttpResponse)
    (hok : respOk r = true) :
    (∃ v, handleGeminiResponse parse r = .ok v) ∨
    handleGeminiResponse parse r = .error invalidResponseMsg ∨
    handleGeminiResponse parse r = .error invalidFormatMsg ∨
    handleGeminiResponse parse r = .error parseFailMsg := by
  unfold handleGeminiResponse
  rw [hok, if_neg (by simp)]
  cases hc : r.content with
  | none => exact Or.inr (Or.inl rfl)
  | some content =>
    dsimp only
    by_cases hfmt : ((cleanJsonResponse content).isEmpty ||
        (!(List.isPrefixOf "[".toList (cleanJsonResponse content)) &&
          !(List.isPrefixOf "\x7b".toList (cleanJsonResponse content)))) = true
    · rw [if_pos hfmt]
      exact Or.inr (Or.inr (Or.inl rfl))
    · rw [if_neg hfmt]
      cases hp : parse (cleanJsonResponse content) with
      | none => exact Or.inr (Or.inr (Or.inr rfl))
      | some v => exact Or.inl ⟨v, rfl⟩

/-- C2 counterexample: a 404 response whose error body mentions "fetch" is
re-raised by the catch-all as the network-error message, not as the generic
failure carrying the status code that the classification produced. -/
theorem status_classification_counterexample :
    (makeGeminiRequest (fun _ => (none : Option Unit)) true
        (.response ⟨404, "the upstream fetch failed".toList, none⟩)).1 =
      .error networkMsg ∧
    networkMsg ≠ classifyStatus 404 "the upstream fetch failed".toList := by
  constructor
  · rfl
  · decide

/-- C2 amended: for a non-ok response `makeGeminiRequest` raises exactly the
catch-rewrapped status classification — 429 the rate-limit message, 401 the
invalid-key message, status ≥ 500 the service-unavailable message, and any
other non-ok status the generic failure carrying the status code, unless
that generic message contains "fetch", in which case the catch-all rewraps
it into the network-error message (counterexample above); it raises the
classification error only for non-ok statuses, and a 429 rate-limit message
is surfaced verbatim by the onboarding caller. -/
theorem makeGeminiRequest_status_errors (parse : List Char → Option α)
    (r : HttpResponse) :
    ((makeGeminiRequest parse true (.response r)).1 =
        .error (catchWrap (classifyStatus r.status r.bodyText)) ↔ respOk r = false) ∧
    (r.status = 429 →
      (makeGeminiRequest parse true (.response r)).1 = .error rateLimitMsg) ∧
    (r.status = 401 →
      (makeGeminiRequest parse true (.response r)).1 = .error invalidKeyMsg) ∧
    (500 ≤ r.status →
      (makeGeminiRequest parse true (.response r)).1 = .error unavailableMsg) ∧
    (respOk r = false → r.status ≠ 429 → r.status ≠ 401 → r.status < 500 →
      containsSub (genericFailHead ++ (Nat.repr r.status).toList ++ " - ".toList ++
          r.bodyText) "fetch".toList = false →
      (makeGeminiRequest parse true (.response r)).1 =
        .error (genericFailHead ++ (Nat.repr r.status).toList ++ " - ".toList ++
          r.bodyText)) ∧
    (r.status = 429 → ∀ isArr : α → Bool,
      goalSubmitToast parse isArr true (.response r) = some rateLimitMsg) := by
  have hbase : ∀ hok : respOk r = false,
      (makeGeminiRequest parse true (.response r)).1 =
        .error (catchWrap (classifyStatus r.status r.bodyText)) := by
    intro hok
    simp [makeGeminiRequest, handleGeminiResponse, hok]
  have h429 : r.status = 429 →
      (makeGeminiRequest parse true (.response r)).1 = .error rateLimitMsg := by
    intro hs
    have hok : respOk r = false := by simp [respOk, hs]
    rw [hbase hok]
    have : classifyStatus r.status r.bodyText = rateLimitMsg := by
      unfold classifyStatus
      rw [if_pos hs]
    rw [this]
    have : catchWrap rateLimitMsg = rateLimitMsg := by decide
    rw [this]
  refine ⟨⟨?_, hbase⟩, h429, ?_, ?_, ?_, ?_⟩
  · -- the classification error is raised only for non-ok statuses
    intro heq
    by_contra hok'
    have hok : respOk r = true := by
      cases h : respOk r
      · exact absurd h hok'
      · rfl
    have hrange : 200 ≤ r.status ∧ r.status ≤ 299 := by
      simpa [respOk] using hok
    have hclass := classifyStatus_of_ok r.status r.bodyText hrange.1 hrange.2
    have hne : ∀ m : List Char, m = invalidResponseMsg ∨ m = invalidFormatMsg ∨
        m = parseFailMsg →
        catchWrap m ≠ catchWrap (classifyStatus r.status r.bodyText) := by
      intro m hm
      have hmw : catchWrap m = m := by
        rcases hm with h | h | h <;> subst h <;> decide
      rw [hmw, hclass]
      unfold catchWrap
      by_cases hf : containsSub (genericFailHead ++
          ((Nat.repr r.status).toList ++ " - ".toList ++ r.bodyText)) "fetch".toList = true
      · rw [if_pos hf]
        rcases hm with h | h | h <;> subst h <;> decide
      · rw [if_neg hf]
        refine fun hcontra => append_ne_of_not_isPrefixOf genericFailHead m _ ?_ hcontra.symm
        rcases hm with h | h | h <;> subst h <;> decide
    rcases handleGeminiResponse_of_ok parse r hok with ⟨v, hv⟩ | hv | hv | hv <;>
      rw [show (makeGeminiRequest parse true (.response r)).1 =
          (match handleGeminiResponse parse r with
           | .ok v => Except.ok v
           | .error m => .error (catchWrap m)) from rfl, hv] at heq
    · exact Except.noConfusion heq
    · exact hne invalidResponseMsg (Or.inl rfl) (Except.error.inj heq)
    · exact hne invalidFormatMsg (Or.inr (Or.inl rfl)) (Except.error.inj heq)
    · exact hne parseFailMsg (Or.inr (Or.inr rfl)) (Except.error.inj heq)
  · intro hs
    have hok : respOk r = false := by simp [respOk, hs]
    rw [hbase hok]
    have h1 : classifyStatus r.status r.bodyText = invalidKeyMsg := by
      unfold classifyStatus
      rw [if_neg (by omega), if_pos hs]
    rw [h1]
    have : catchWrap invalidKeyMsg = invalidKeyMsg := by decide
    rw [this]
  · intro hs
    have hok : respOk r = false := by simp [respOk]; omega
    rw [hbase hok]
    have h1 : classifyStatus r.status r.bodyText = unavailableMsg := by
      unfold classifyStatus
      rw [if_neg (by omega), if_neg (by omega), if_pos hs]
    rw [h1]
    have : catchWrap unavailableMsg = unavailableMsg := by decide
    rw [this]
  · intro hok hs1 hs2 hs3 hfetch
    rw [hbase hok]
    have h1 : classifyStatus r.status r.bodyText =
        genericFailHead ++ (Nat.repr r.status).toList ++ " - ".toList ++ r.bodyText := by
      unfold classifyStatus
      rw [if_neg hs1, if_neg hs2, if_neg (by omega)]
    rw [h1]
    unfold catchWrap
    rw [if_neg (by rw [hfetch]; exact Bool.false_ne_true)]
  · intro hs isArr
    have hmk := h429 hs
    unfold goalSubmitToast generateQuestions
    rw [hmk]
    have : (rateLimitMsg.isEmpty) = false := by decide
    simp [wrapGenError, this]

/-- Witness for `makeGeminiRequest_status_errors`: a concrete 429 response
produces the rate-limit error, and the onboarding caller surfaces it. -/
theorem makeGeminiRequest_status_errors_witness :
    (makeGeminiRequest (fun _ => (none : Option Unit)) true
        (.response ⟨429, [], none⟩)).1 = .error rateLimitMsg ∧
    goalSubmitToast (fun _ => (none : Option Unit)) (fun _ => true) true
        (.response ⟨429, [], none⟩) = some rateLimitMsg :=
  ⟨(makeGeminiRequest_status_errors (fun _ => (none : Option Unit))
      ⟨429, [], none⟩).2.1 rfl,
   (makeGeminiRequest_status_errors (fun _ => (none : Option Unit))
      ⟨429, [], none⟩).2.2.2.2.2 rfl (fun _ => true)⟩

/-! ## C1: JSON extraction lemmas -/

theorem noDelims_spec (s : List Char) (h : noDelims s = true) (d : Char) (hd : d ∈ s) :
    d ≠ '{' ∧ d ≠ '}' ∧ d ≠ '[' ∧ d ≠ ']' := by
  have hx := List.all_eq_true.mp h d hd
  simp only [noDelims, Bool.not_eq_true', Bool.or_eq_false_iff, decide_eq_false_iff_not] at hx
  exact ⟨hx.1.1.1, hx.1.1.2, hx.1.2, hx.2⟩

theorem noDelims_of_subset (s s' : List Char) (hsub : ∀ d ∈ s', d ∈ s)
    (h : noDelims s = true) : noDelims s' = true := by
  refine List.all_eq_true.mpr fun d hd => ?_
  exact List.all_eq_true.mp h d (hsub d hd)

theorem firstIdx_append_of_not_mem (c : Char) (p s : List Char) (hp : c ∉ p) :
    firstIdx c (p ++ s) = (firstIdx c s).map (· + p.length) := by
  induction p with
  | nil =>
    rw [List.nil_append]
    cases h : firstIdx c s <;> simp
  | cons x xs ih =>
    have hx : ¬(x = c) := fun h => hp (h ▸ List.mem_cons_self x xs)
    have hxs : c ∉ xs := fun h => hp (List.mem_cons_of_mem x h)
    rw [List.cons_append, firstIdx, if_neg hx, ih hxs]
    cases h : firstIdx c s with
    | none => simp
    | some i =>
      simp only [Option.map_some', Option.some.injEq, List.length_cons]
      omega

theorem firstIdx_getElem (c : Char) (s : List Char) :
    ∀ i, firstIdx c s = some i → s[i]? = some c := by
  induction s with
  | nil => intro i h; simp [firstIdx] at h
  | cons x xs ih =>
    intro i h
    by_cases hx : x = c
    · rw [firstIdx, if_pos hx] at h
      have : i = 0 := by simpa using h.symm
      subst this
      simp [hx]
    · rw [firstIdx, if_neg hx] at h
      cases hfi : firstIdx c xs with
      | none => rw [hfi] at h; simp at h
      | some jj =>
        rw [hfi] at h
        simp only [Option.map_some', Option.some.injEq] at h
        subst h
        rw [List.getElem?_cons_succ]
        exact ih jj hfi

theorem lastIdx_sandwich (c : Char) (p j q : List Char) (hq : c ∉ q)
    (hl : j.getLast? = some c) :
    lastIdx c (p ++ j ++ q) = some (p.length + j.length - 1) := by
  obtain ⟨j0, rfl⟩ := List.getLast?_eq_some_iff.mp hl
  have hqrev : c ∉ q.reverse := fun h => hq (List.mem_reverse.mp h)
  unfold lastIdx
  rw [List.reverse_append, List.reverse_append,
    firstIdx_append_of_not_mem c q.reverse _ hqrev]
  rw [List.reverse_append, List.reverse_singleton]
  rw [show ([c] ++ j0.reverse ++ p.reverse : List Char) =
    c :: (j0.reverse ++ p.reverse) from rfl]
  rw [show firstIdx c (c :: (j0.reverse ++ p.reverse)) = some 0 by
    rw [firstIdx, if_pos rfl]]
  simp only [Option.map_some', Option.some.injEq]
  simp only [List.length_append, List.length_reverse, List.length_singleton]
  omega

theorem reMatch_fst_char (o c : Char) (s : List Char) (i jj : Nat)
    (h : reMatch o c s = some (i, jj)) : s[i]? = some o := by
  unfold reMatch at h
  cases hL : lastIdx c s with
  | none => rw [hL] at h; exact Option.noConfusion h
  | some J =>
    rw [hL] at h
    dsimp only at h
    cases hF : firstIdx o (s.take J) with
    | none => rw [hF] at h; exact Option.noConfusion h
    | some i0 =>
      rw [hF] at h
      dsimp only at h
      simp only [Option.some.injEq, Prod.mk.injEq] at h
      obtain ⟨hi, -⟩ := h
      subst hi
      have hg := firstIdx_getElem o (s.take J) i0 hF
      rw [List.getElem?_take] at hg
      by_cases hlt : i0 < J
      · rw [if_pos hlt] at hg; exact hg
      · rw [if_neg hlt] at hg; exact Option.noConfusion hg

theorem head_len_two (j : List Char) (o c : Char) (hh : j.head? = some o)
    (hl : j.getLast? = some c) (hoc : o ≠ c) : 2 ≤ j.length := by
  obtain ⟨t, rfl⟩ := List.head?_eq_some_iff.mp hh
  cases t with
  | nil => simp at hl; exact absurd hl hoc
  | cons y ys => simp [List.length_cons]

theorem take_sandwich (p j q : List Char) (hj2 : 2 ≤ j.length) :
    (p ++ j ++ q).take (p.length + j.length - 1) = p ++ j.take (j.length - 1) := by
  rw [List.append_assoc, List.take_append_eq_append_take]
  have h1 : p.length ≤ p.length + j.length - 1 := by omega
  rw [List.take_of_length_le h1]
  congr 1
  rw [List.take_append_eq_append_take]
  have h2 : p.length + j.length - 1 - p.length = j.length - 1 := by omega
  have h3 : j.length - 1 - j.length = 0 := by omega
  rw [h2, h3, List.take_zero, List.append_nil]

theorem reMatch_sandwich (o c : Char) (p j q : List Char)
    (hop : o ∉ p) (hcq : c ∉ q) (hh : j.head? = some o) (hl : j.getLast? = some c)
    (hoc : o ≠ c) :
    reMatch o c (p ++ j ++ q) = some (p.length, p.length + j.length - 1) := by
  have hj2 := head_len_two j o c hh hl hoc
  have hL := lastIdx_sandwich c p j q hcq hl
  unfold reMatch
  rw [hL]
  dsimp only
  rw [take_sandwich p j q hj2]
  obtain ⟨t, rfl⟩ := List.head?_eq_some_iff.mp hh
  have htake : (o :: t).take ((o :: t).length - 1) = o :: t.take (t.length - 1) := by
    obtain ⟨m, hm⟩ : ∃ m, t.length = m + 1 :=
      ⟨t.length - 1, by simp at hj2; omega⟩
    simp only [List.length_cons, Nat.add_sub_cancel]
    rw [hm, List.take_succ_cons, Nat.add_sub_cancel]
  rw [htake, firstIdx_append_of_not_mem o p _ hop]
  rw [show firstIdx o (o :: t.take (t.length - 1)) = some 0 by
    rw [firstIdx, if_pos rfl]]
  simp

theorem extractSpan_sandwich (p j q : List Char) (hj : j ≠ []) :
    extractSpan (p ++ j ++ q) p.length (p.length + j.length - 1) = j := by
  unfold extractSpan
  rw [List.append_assoc, List.drop_left]
  have hjl : 1 ≤ j.length := List.length_pos.mpr hj
  have h1 : p.length + j.length - 1 + 1 - p.length = j.length := by omega
  rw [h1, List.take_left]

theorem getElem_sandwich_head (p j q : List Char) (o : Char) (hh : j.head? = some o) :
    (p ++ j ++ q)[p.length]? = some o := by
  obtain ⟨t, rfl⟩ := List.head?_eq_some_iff.mp hh
  rw [List.append_assoc, List.getElem?_append_right (Nat.le_refl p.length)]
  simp

theorem sandwich_idx_gt (p j q : List Char) (o d : Char) (i : Nat)
    (hp : noDelims p = true) (hh : j.head? = some o)
    (hdelim : d = '{' ∨ d = '}' ∨ d = '[' ∨ d = ']') (hdo : d ≠ o)
    (hchar : (p ++ j ++ q)[i]? = some d) : p.length < i := by
  rcases Nat.lt_trichotomy i p.length with hlt | heq | hgt
  · exfalso
    rw [List.append_assoc, List.getElem?_append_left hlt] at hchar
    have hmem : d ∈ p := List.getElem?_mem hchar
    have hspec := noDelims_spec p hp d hmem
    rcases hdelim with h | h | h | h
    · exact hspec.1 h
    · exact hspec.2.1 h
    · exact hspec.2.2.1 h
    · exact hspec.2.2.2 h
  · exfalso
    subst heq
    rw [getElem_sandwich_head p j q o hh] at hchar
    have : o = d := by simpa using hchar
    exact hdo this.symm
  · exact hgt

theorem extractJson_object (p j q : List Char) (hp : noDelims p = true)
    (hq : noDelims q = true) (hh : j.head? = some '{') (hl : j.getLast? = some '}') :
    extractJson (p ++ j ++ q) = j := by
  have hop : '{' ∉ p := fun hm => (noDelims_spec p hp _ hm).1 rfl
  have hcq : '}' ∉ q := fun hm => (noDelims_spec q hq _ hm).2.1 rfl
  have hobj := reMatch_sandwich '{' '}' p j q hop hcq hh hl (by decide)
  have hjne : j ≠ [] := by
    intro h
    rw [h] at hh
    exact Option.noConfusion hh
  unfold extractJson
  cases harr : reMatch '[' ']' (p ++ j ++ q) with
  | none =>
    rw [hobj]
    exact extractSpan_sandwich p j q hjne
  | some am =>
    obtain ⟨ai, aj⟩ := am
    rw [hobj]
    dsimp only
    have hchar := reMatch_fst_char '[' ']' (p ++ j ++ q) ai aj harr
    have hai : p.length < ai :=
      sandwich_idx_gt p j q '{' '[' ai hp hh (Or.inr (Or.inr (Or.inl rfl)))
        (by decide) hchar
    rw [if_neg (by omega)]
    exact extractSpan_sandwich p j q hjne

theorem extractJson_array (p j q : List Char) (hp : noDelims p = true)
    (hq : noDelims q = true) (hh : j.head? = some '[') (hl : j.getLast? = some ']') :
    extractJson (p ++ j ++ q) = j := by
  have hop : '[' ∉ p := fun hm => (noDelims_spec p hp _ hm).2.2.1 rfl
  have hcq : ']' ∉ q := fun hm => (noDelims_spec q hq _ hm).2.2.2 rfl
  have harr := reMatch_sandwich '[' ']' p j q hop hcq hh hl (by decide)
  have hjne : j ≠ [] := by
    intro h
    rw [h] at hh
    exact Option.noConfusion hh
  unfold extractJson
  rw [harr]
  cases hobj : reMatch '{' '}' (p ++ j ++ q) with
  | none =>
    exact extractSpan_sandwich p j q hjne
  | some om =>
    obtain ⟨oi, oj⟩ := om
    dsimp only
    have hchar := reMatch_fst_char '{' '}' (p ++ j ++ q) oi oj hobj
    have hoi : p.length < oi :=
      sandwich_idx_gt p j q '[' '{' oi hp hh (Or.inl rfl) (by decide) hchar
    rw [if_pos (by omega)]
    exact extractSpan_sandwich p j q hjne

theorem dropWhile_append_head (p s : List Char) (x : Char)
    (hx : s.head? = some x) (hxw : isJsWsp x = false) :
    List.dropWhile isJsWsp (p ++ s) = List.dropWhile isJsWsp p ++ s := by
  obtain ⟨t, rfl⟩ := List.head?_eq_some_iff.mp hx
  rw [List.dropWhile_append]
  by_cases he : (List.dropWhile isJsWsp p).isEmpty = true
  · rw [if_pos he]
    rw [List.isEmpty_iff.mp he, List.nil_append, List.dropWhile_cons, hxw]
    simp
  · rw [if_neg he]

theorem trimLeft_append_head (p s : List Char) (x : Char)
    (hx : s.head? = some x) (hxw : isJsWsp x = false) :
    trimLeft (p ++ s) = trimLeft p ++ s :=
  dropWhile_append_head p s x hx hxw

theorem trimRight_append_last (s q : List Char) (x : Char)
    (hx : s.getLast? = some x) (hxw : isJsWsp x = false) :
    trimRight (s ++ q) = s ++ trimRight q := by
  unfold trimRight
  rw [List.reverse_append]
  rw [dropWhile_append_head q.reverse s.reverse x (by rw [List.head?_reverse]; exact hx) hxw]
  rw [List.reverse_append, List.reverse_reverse]

theorem trimLeft_mem (p : List Char) (d : Char) (hd : d ∈ trimLeft p) : d ∈ p :=
  (List.dropWhile_sublist isJsWsp).mem hd

theorem trimRight_mem (p : List Char) (d : Char) (hd : d ∈ trimRight p) : d ∈ p := by
  unfold trimRight at hd
  rw [List.mem_reverse] at hd
  exact List.mem_reverse.mp ((List.dropWhile_sublist isJsWsp).mem hd)

theorem trimStr_sandwich (p j q : List Char) (o c : Char)
    (hh : j.head? = some o) (hl : j.getLast? = some c)
    (how : isJsWsp o = false) (hcw : isJsWsp c = false) :
    trimStr (p ++ j ++ q) = trimLeft p ++ j ++ trimRight q := by
  unfold trimStr
  rw [List.append_assoc,
    trimLeft_append_head p (j ++ q) o (by rw [List.head?_append, hh]; rfl) how,
    ← List.append_assoc,
    trimRight_append_last (trimLeft p ++ j) q c (by rw [List.getLast?_append, hl]; rfl) hcw]

theorem prefix_len_le (pat p j q : List Char) (o : Char) (hh : j.head? = some o)
    (hpre : List.isPrefixOf pat (p ++ j ++ q) = true) (hnomem : o ∉ pat) :
    pat.length ≤ p.length := by
  by_contra hlt
  push_neg at hlt
  obtain ⟨t, ht⟩ := List.isPrefixOf_iff_prefix.mp hpre
  have h1 : (pat ++ t)[p.length]? = pat[p.length]? :=
    List.getElem?_append_left (by omega)
  rw [ht, getElem_sandwich_head p j q o hh] at h1
  exact hnomem (List.getElem?_mem h1.symm)

theorem stripFront_sandwich (p j q : List Char) (o : Char) (hh : j.head? = some o)
    (ho : o = '{' ∨ o = '[') :
    ∃ p', stripFront (p ++ j ++ q) = p' ++ j ++ q ∧ ∀ d ∈ p', d ∈ p := by
  have honot7 : o ∉ "```json".toList := by
    rcases ho with h | h <;> subst h <;> decide
  have honot3 : o ∉ "```".toList := by
    rcases ho with h | h <;> subst h <;> decide
  unfold stripFront
  by_cases h7 : List.isPrefixOf "```json".toList (p ++ j ++ q) = true
  · rw [if_pos h7]
    have hlen : 7 ≤ p.length := by
      simpa using prefix_len_le "```json".toList p j q o hh h7 honot7
    refine ⟨p.drop 7, ?_, fun d hd => List.mem_of_mem_drop hd⟩
    rw [List.append_assoc, List.drop_append_eq_append_drop,
      show 7 - p.length = 0 from by omega, List.drop_zero, List.append_assoc]
  · rw [if_neg h7]
    by_cases h3 : List.isPrefixOf "```".toList (p ++ j ++ q) = true
    · rw [if_pos h3]
      have hlen : 3 ≤ p.length := by
        simpa using prefix_len_le "```".toList p j q o hh h3 honot3
      refine ⟨p.drop 3, ?_, fun d hd => List.mem_of_mem_drop hd⟩
      rw [List.append_assoc, List.drop_append_eq_append_drop,
        show 3 - p.length = 0 from by omega, List.drop_zero, List.append_assoc]
    · rw [if_neg h3]
      exact ⟨p, rfl, fun d hd => hd⟩

theorem stripFences_sandwich (p j q : List Char) (o c : Char)
    (hh : j.head? = some o) (hl : j.getLast? = some c)
    (ho : o = '{' ∨ o = '[') (hc : c = '}' ∨ c = ']') :
    ∃ p' q', stripFences (p ++ j ++ q) = p' ++ j ++ q' ∧
      (∀ d ∈ p', d ∈ p) ∧ (∀ d ∈ q', d ∈ q) := by
  obtain ⟨p1, hp1, hp1mem⟩ := stripFront_sandwich p j q o hh ho
  have hcnot : c ∉ "```".toList.reverse := by
    rcases hc with h | h <;> subst h <;> decide
  unfold stripFences
  rw [hp1]
  by_cases h3 : List.isPrefixOf ("```".toList.reverse) ((p1 ++ j ++ q).reverse) = true
  · rw [if_pos h3]
    have hrev : (p1 ++ j ++ q).reverse = q.reverse ++ j.reverse ++ p1.reverse := by
      rw [List.reverse_append, List.reverse_append, ← List.append_assoc]
    have hjrev : j.reverse.head? = some c := by
      rw [List.head?_reverse]
      exact hl
    have hlen := prefix_len_le ("```".toList.reverse) q.reverse j.reverse p1.reverse c
      hjrev (by rw [← hrev]; exact h3) hcnot
    have hq3 : 3 ≤ q.length := by simpa using hlen
    refine ⟨p1, q.take (q.length - 3), ?_, hp1mem, fun d hd => List.mem_of_mem_take hd⟩
    rw [List.take_append_eq_append_take,
      show (p1 ++ j ++ q).length - 3 - (p1 ++ j).length = q.length - 3 from by
        simp only [List.length_append]
        omega]
    congr 1
    exact List.take_of_length_le (by
      simp only [List.length_append]
      omega)
  · rw [if_neg h3]
    exact ⟨p1, q, rfl, hp1mem, fun d hd => hd⟩

/-- The heart of C1: when the cleaned text is a JSON object or array span
(first character `{` matching a final `}`, or `[` matching `]`) surrounded
by text free of the four bracket characters, `cleanJsonResponse` returns
exactly the embedded span — through both trims, the fence stripping and the
regex extraction. -/
theorem cleanJsonResponse_sandwich (pre j post : List Char)
    (hpre : noDelims pre = true) (hpost : noDelims post = true)
    (hjson : (j.head? = some '{' ∧ j.getLast? = some '}') ∨
      (j.head? = some '[' ∧ j.getLast? = some ']')) :
    cleanJsonResponse (pre ++ j ++ post) = j := by
  obtain ⟨o, c, hh, hl, hoc⟩ : ∃ o c, j.head? = some o ∧ j.getLast? = some c ∧
      ((o = '{' ∧ c = '}') ∨ (o = '[' ∧ c = ']')) := by
    rcases hjson with ⟨hh, hl⟩ | ⟨hh, hl⟩
    · exact ⟨'{', '}', hh, hl, Or.inl ⟨rfl, rfl⟩⟩
    · exact ⟨'[', ']', hh, hl, Or.inr ⟨rfl, rfl⟩⟩
  have ho : o = '{' ∨ o = '[' := by
    rcases hoc with ⟨h, -⟩ | ⟨h, -⟩
    · exact Or.inl h
    · exact Or.inr h
  have hc : c = '}' ∨ c = ']' := by
    rcases hoc with ⟨-, h⟩ | ⟨-, h⟩
    · exact Or.inl h
    · exact Or.inr h
  have how : isJsWsp o = false := by rcases ho with h | h <;> subst h <;> decide
  have hcw : isJsWsp c = false := by rcases hc with h | h <;> subst h <;> decide
  unfold cleanJsonResponse
  rw [trimStr_sandwich pre j post o c hh hl how hcw]
  obtain ⟨p1, q1, heq, hp1mem, hq1mem⟩ :=
    stripFences_sandwich (trimLeft pre) j (trimRight post) o c hh hl ho hc
  rw [heq, trimStr_sandwich p1 j q1 o c hh hl how hcw]
  have hprnd : noDelims (trimLeft pre) = true :=
    noDelims_of_subset pre _ (trimLeft_mem pre) hpre
  have hponde : noDelims (trimRight post) = true :=
    noDelims_of_subset post _ (trimRight_mem post) hpost
  have hp1nd : noDelims p1 = true := noDelims_of_subset _ _ hp1mem hprnd
  have hq1nd : noDelims q1 = true := noDelims_of_subset _ _ hq1mem hponde
  have hp2 : noDelims (trimLeft p1) = true :=
    noDelims_of_subset p1 _ (trimLeft_mem p1) hp1nd
  have hq2 : noDelims (trimRight q1) = true :=
    noDelims_of_subset q1 _ (trimRight_mem q1) hq1nd
  rcases hoc with ⟨rfl, rfl⟩ | ⟨rfl, rfl⟩
  · exact extractJson_object _ j _ hp2 hq2 hh hl
  · exact extractJson_array _ j _ hp2 hq2 hh hl

/-- C1 counterexample: the content carrying the JSON object `{}` followed by
the free-form tail `[space]x}` defeats the greedy extraction — the regex
spans from the first opening brace to the last closing brace, so the
extracted text is the whole tail-polluted span, not the embedded object,
and a 200 response carrying it makes `makeGeminiRequest` raise the
parse-failure error instead of returning the object (the model `parse`
accepts exactly the embedded object text). -/
theorem cleanJsonResponse_counterexample :
    cleanJsonResponse ['{', '}', ' ', 'x', '}'] = ['{', '}', ' ', 'x', '}'] ∧
    (['{', '}', ' ', 'x', '}'] : List Char) ≠ ['{', '}'] ∧
    (makeGeminiRequest (fun s => if s = ['{', '}'] then some 0 else none) true
        (.response ⟨200, [], some ['{', '}', ' ', 'x', '}']⟩)).1 =
      .error parseFailMsg := by
  refine ⟨by rfl, by decide, by rfl⟩

/-- C1 amended: when the reply content is a single JSON array or object span
— optionally wrapped in markdown code fences and optionally surrounded by
extra free-form text, provided that the surrounding text contains none of
the four bracket characters — the extraction returns exactly the embedded
span, and `makeGeminiRequest` returns exactly the value the JSON parser
gives for that span on a 200-range response carrying such content.  Without
the bracket-free proviso the claim fails, as the counterexample shows. -/
theorem extraction_roundtrip (parse : List Char → Option α) (v : α)
    (pre j post body : List Char) (status : Nat)
    (h200 : 200 ≤ status) (h299 : status ≤ 299)
    (hpre : noDelims pre = true) (hpost : noDelims post = true)
    (hjson : (j.head? = some '{' ∧ j.getLast? = some '}') ∨
      (j.head? = some '[' ∧ j.getLast? = some ']'))
    (hparse : parse j = some v) :
    cleanJsonResponse (pre ++ j ++ post) = j ∧
    (makeGeminiRequest parse true
        (.response ⟨status, body, some (pre ++ j ++ post)⟩)).1 = .ok v := by
  have hclean := cleanJsonResponse_sandwich pre j post hpre hpost hjson
  refine ⟨hclean, ?_⟩
  have hok : respOk ⟨status, body, some (pre ++ j ++ post)⟩ = true := by
    simp only [respOk, Bool.and_eq_true, decide_eq_true_eq]
    omega
  have hhandle : handleGeminiResponse parse
      ⟨status, body, some (pre ++ j ++ post)⟩ = .ok v := by
    unfold handleGeminiResponse
    rw [hok, if_neg (by simp)]
    dsimp only
    rw [hclean]
    have hfmt : (j.isEmpty ||
        (!(List.isPrefixOf "[".toList j) && !(List.isPrefixOf "\x7b".toList j))) = false := by
      rcases hjson with ⟨hh, -⟩ | ⟨hh, -⟩ <;>
        obtain ⟨t, rfl⟩ := List.head?_eq_some_iff.mp hh <;>
        simp [List.isPrefixOf]
    rw [if_neg (by rw [hfmt]; exact Bool.false_ne_true), hparse]
  rw [show (makeGeminiRequest parse true
      (.response ⟨status, body, some (pre ++ j ++ post)⟩)).1 =
    (match handleGeminiResponse parse ⟨status, body, some (pre ++ j ++ post)⟩ with
     | .ok v => Except.ok v
     | .error m => Except.error (catchWrap m)) from rfl, hhandle]

/-- Witness for `extraction_roundtrip`: a fenced JSON array with free-form
text around the fences, on a 200 response, with a parser accepting exactly
the embedded span. -/
theorem extraction_roundtrip_witness :
    cleanJsonResponse ("```json\n".toList ++ ['[', '1', ']'] ++ "\n``` ok".toList) =
      ['[', '1', ']'] ∧
    (makeGeminiRequest (fun s => if s = ['[', '1', ']'] then some 7 else none) true
        (.response ⟨200, [],
          some ("```json\n".toList ++ ['[', '1', ']'] ++ "\n``` ok".toList)⟩)).1 =
      .ok 7 :=
  extraction_roundtrip (fun s => if s = ['[', '1', ']'] then some 7 else none) 7
    "```json\n".toList ['[', '1', ']'] "\n``` ok".toList [] 200
    (by decide) (by decide) (by decide) (by decide)
    (Or.inr ⟨by decide, by decide⟩) (by decide)
